import Mathlib

/-
Verification development for the Stemperator launcher script
(src/scripts/reaper/audio_separator_process.py).

The Python source is shallowly embedded: strings are modelled as lists
of characters (Python str), device objects of the foreign torch library
are an inductive type, fallible foreign calls return Except, and the
two background progress estimators are modelled as functions of the
sequence of elapsed-time samples their polling loops observe.
-/

set_option autoImplicit false

namespace Stemperator

/-- Python strings are modelled as lists of characters. -/
abbrev Str := List Char

/-- Coercion from a Lean string literal to the model type. -/
def strL (s : String) : Str := s.data

/-- ASCII lower-casing of one character, the effect of Python str.lower on
the ASCII identifiers this program manipulates. -/
def lowerChar (c : Char) : Char :=
  if 'A' ≤ c && c ≤ 'Z' then Char.ofNat (c.toNat + 32) else c

/-- Python str.lower restricted to ASCII input. -/
def lowerL (s : Str) : Str := s.map lowerChar

/-- Characters removed by Python str.strip. -/
def isSpaceChar (c : Char) : Bool :=
  c = ' ' || c = '\t' || c = '\n' || c = '\r'

/-- Python str.strip: drop whitespace from both ends. -/
def trimL (s : Str) : Str :=
  ((s.dropWhile isSpaceChar).reverse.dropWhile isSpaceChar).reverse

/-- Split a character list at every occurrence of the separator, keeping
empty chunks, as Python str.split with a one-character separator does.
The result is always non-empty. -/
def splitOnChar (c : Char) : Str → List Str
  | [] => [[]]
  | x :: xs =>
    if x = c then [] :: splitOnChar c xs
    else
      match splitOnChar c xs with
      | [] => [[x]]
      | y :: ys => (x :: y) :: ys

/-- Last path component, as Python os.path.basename / pathlib name for
the slash-separated paths this program builds: the longest slash-free
suffix. -/
def baseNameL (p : Str) : Str := (p.reverse.takeWhile (fun c => c != '/')).reverse

/-- Python pathlib Path stem of a file NAME (no directory part): the
suffix from the LAST dot is removed, but only when that dot sits
strictly inside the name (pathlib keeps a leading dot as in ".bashrc"
and a trailing dot as in "a."). -/
def stemL (name : Str) : Str :=
  let r := name.reverse
  let tail := r.takeWhile (fun c => c != '.')
  if tail.length = r.length then name
  else
    let i := name.length - 1 - tail.length
    if 0 < i ∧ i < name.length - 1 then (r.drop (tail.length + 1)).reverse
    else name

/-- Path stem of a full path: stem of the base name. -/
def stemOfPath (p : Str) : Str := stemL (baseNameL p)

/-- POSIX absolute-path test, as os.path.isabs on the POSIX paths this
program handles: does the path start with a slash? -/
def isAbsL (p : Str) : Bool := p.headD ' ' == '/'

/-- POSIX os.path.join for two components: an absolute second component
replaces the first; otherwise the components are joined with a slash
(none inserted when the first already ends in one or is empty). -/
def osJoinL (a b : Str) : Str :=
  if isAbsL b then b
  else if a = [] then b
  else if a.getLastD ' ' = '/' then a ++ b
  else a ++ '/' :: b

/-- Decimal digit test. -/
def isDigitChar (c : Char) : Bool := '0' ≤ c && c ≤ '9'

/-- Numeric value of a decimal digit character. -/
def digitVal (c : Char) : ℕ := c.toNat - ('0').toNat

/-- Accumulating decimal parser over a digit list; fails on the first
non-digit character. -/
def digitsValAux (acc : ℕ) : Str → Option ℕ
  | [] => some acc
  | c :: cs => if isDigitChar c then digitsValAux (acc * 10 + digitVal c) cs else none

/-- Parse a non-empty all-digit character list as a natural number. -/
def digitsVal : Str → Option ℕ
  | [] => none
  | c :: cs => digitsValAux 0 (c :: cs)

/-- Python int(str) on the strings this program feeds it: optional strip,
optional sign, then decimal digits; anything else raises ValueError,
modelled as none. -/
def pyIntParse (s : Str) : Option ℤ :=
  match trimL s with
  | '-' :: rest => (digitsVal rest).map (fun n => -(n : ℤ))
  | '+' :: rest => (digitsVal rest).map (fun n => (n : ℤ))
  | rest => (digitsVal rest).map (fun n => (n : ℤ))

/-- Decimal digits of a natural number. -/
def digitsOfNat (n : ℕ) : Str := Nat.toDigits 10 n

/-- Decimal rendering of an integer, the effect of Python f-string
formatting of an int. -/
def intToStr (i : ℤ) : Str :=
  if i < 0 then '-' :: digitsOfNat i.natAbs else digitsOfNat i.natAbs

/-- Torch device objects as far as this program distinguishes them:
CPU, a CUDA device with an optional index, the Apple MPS device, and a
torch_directml device handle with its integer index. -/
inductive TorchDevice where
  | cpu
  | cuda (index : Option ℕ)
  | mps
  | dml (index : ℤ)
deriving DecidableEq, Repr

/-- Host capabilities probed by the script: torch.cuda.is_available and
torch.cuda.device_count, the platform test, importability of
torch_directml and its device_count, and the MPS backend flag
(hasattr together with is_available, which the source always checks as
one conjunction). -/
structure Env where
  cudaAvailable : Bool
  cudaCount : ℕ
  isWindows : Bool
  dmlImportable : Bool
  dmlCount : ℕ
  mpsAvailable : Bool
deriving DecidableEq, Repr

/-- Model of the foreign constructor torch.device on the cuda-class
strings this program can pass it (every call site either passes a fixed
valid literal, modelled directly, or a token already known to start with
"cuda"): torch accepts exactly "cuda" or "cuda:" followed by decimal
digits, and raises RuntimeError on anything else, modelled as error. -/
def torchDevice (t : Str) : Except Str TorchDevice :=
  if t = strL "cuda" then .ok (.cuda none)
  else if (strL "cuda:").isPrefixOf t then
    match digitsVal (t.drop 5) with
    | some n => .ok (.cuda (some n))
    | none => .error t
  else .error t

instance exceptDecEq {ε α : Type} [DecidableEq ε] [DecidableEq α] :
    DecidableEq (Except ε α) := fun x y =>
  match x, y with
  | .ok a, .ok b =>
    if h : a = b then isTrue (by rw [h]) else isFalse (fun hc => h (Except.ok.inj hc))
  | .error a, .error b =>
    if h : a = b then isTrue (by rw [h]) else isFalse (fun hc => h (Except.error.inj hc))
  | .ok _, .error _ => isFalse (fun hc => Except.noConfusion hc)
  | .error _, .ok _ => isFalse (fun hc => Except.noConfusion hc)

/-- Result of parse_device_string: the torch device, the backend tag the
function returns alongside it, and whether a WARNING line was printed to
the diagnostic channel. -/
structure Resolved where
  device : TorchDevice
  backend : Str
  warned : Bool
deriving DecidableEq, Repr

/-- Branch chain of parse_device_string (audio_separator_process.py
lines 98-147), applied to the already lower-cased and stripped token:
the branches in source order are "auto", "cpu", a token starting with
"cuda", a token starting with "directml", "mps", and a final catch-all.
The foreign call torch_directml.device(i) is modelled as returning the
dml handle for i (only ImportError, IndexError and ValueError are caught
at that call site in the source).  Exceptions escaping the function are
the error case of the Except. -/
def parseDeviceCore (env : Env) (s : Str) : Except Str Resolved :=
  if s = strL "auto" then
    if env.cudaAvailable then .ok ⟨.cuda (some 0), strL "cuda", false⟩
    else if env.isWindows then
      if env.dmlImportable then .ok ⟨.dml 0, strL "directml", false⟩
      else .ok ⟨.cpu, strL "cpu", false⟩
    else if env.mpsAvailable then .ok ⟨.mps, strL "mps", false⟩
    else .ok ⟨.cpu, strL "cpu", false⟩
  else if s = strL "cpu" then .ok ⟨.cpu, strL "cpu", false⟩
  else if (strL "cuda").isPrefixOf s then
    if env.cudaAvailable then (torchDevice s).map (fun d => ⟨d, strL "cuda", false⟩)
    else .ok ⟨.cpu, strL "cpu", true⟩
  else if (strL "directml").isPrefixOf s then
    if env.dmlImportable then
      if s.contains ':' then
        match (splitOnChar ':' s).get? 1 with
        | some part =>
          match pyIntParse part with
          | some i => .ok ⟨.dml i, strL "directml", false⟩
          | none => .ok ⟨.cpu, strL "cpu", true⟩
        | none => .ok ⟨.cpu, strL "cpu", true⟩
      else .ok ⟨.dml 0, strL "directml", false⟩
    else .ok ⟨.cpu, strL "cpu", true⟩
  else if s = strL "mps" then
    if env.mpsAvailable then .ok ⟨.mps, strL "mps", false⟩
    else .ok ⟨.cpu, strL "cpu", true⟩
  else .ok ⟨.cpu, strL "cpu", true⟩

/-- parse_device_string proper: the token is lower-cased and stripped
(line 96) before the branch chain runs. -/
def parseDeviceString (env : Env) (raw : Str) : Except Str Resolved :=
  parseDeviceCore env (lowerL (trimL raw))

/-- Embedding of detect_available_devices (lines 42-81): CPU first, then
one entry per CUDA index, then (on Windows with torch_directml
importable) one entry per DirectML index, then MPS when available.
Display names come from foreign probes and are modelled generically. -/
def detectAvailableDevices (env : Env) : List (Str × Str) :=
  (strL "cpu", strL "CPU") ::
    ((if env.cudaAvailable then
        (List.range env.cudaCount).map (fun i => (strL "cuda:" ++ digitsOfNat i, strL "GPU"))
      else [])
    ++ (if env.isWindows && env.dmlImportable then
        (List.range env.dmlCount).map (fun i => (strL "directml:" ++ digitsOfNat i, strL "GPU"))
      else [])
    ++ (if env.mpsAvailable then [(strL "mps", strL "Apple Silicon GPU")] else []))

/-- Token of the first catalog entry of a GPU kind (every catalog entry
except the CPU one is a GPU entry). -/
def firstGpuToken (catalog : List (Str × Str)) : Option Str :=
  ((catalog.filter (fun e => decide (e.1 ≠ strL "cpu"))).head?).map (fun e => e.1)

/-- Wire token of a resolved torch device, for comparison with catalog
entry tokens. -/
def deviceToken : TorchDevice → Str
  | .cpu => strL "cpu"
  | .cuda none => strL "cuda"
  | .cuda (some i) => strL "cuda:" ++ digitsOfNat i
  | .mps => strL "mps"
  | .dml i => strL "directml:" ++ intToStr i

/-- The ordered stem pattern table of separate_stems (lines 349-356),
in Python dict insertion order: vocals, drums, bass, other, guitar,
piano. -/
def stemRules : List (Str × List Str) :=
  [ (strL "vocals", [strL "vocals", strL "vocal", strL "Vocals"])
  , (strL "drums", [strL "drums", strL "drum", strL "Drums"])
  , (strL "bass", [strL "bass", strL "Bass"])
  , (strL "other", [strL "other", strL "Other", strL "no_vocals", strL "instrumental", strL "Instrumental"])
  , (strL "guitar", [strL "guitar", strL "Guitar"])
  , (strL "piano", [strL "piano", strL "Piano", strL "keys", strL "Keys"]) ]

/-- Substring test: does the needle occur contiguously inside the hay?
This is the Python "in" operator on strings. -/
def infixOfL (needle : Str) : Str → Bool
  | [] => needle.isEmpty
  | c :: t => needle.isPrefixOf (c :: t) || infixOfL needle t

/-- The FIRST stem of the ordered pattern table one of whose
lower-cased patterns is a SUBSTRING of the (already lower-cased) file
stem.  Note the break at line 377 leaves only the INNER pattern loop:
the outer stem loop goes on, so later rules can fire too on a
multi-match name; that full behavior is modelled by reconcileRun below,
while this helper captures only the first firing rule (the whole story
for names that fire at most one rule). -/
def firstMatchStem (name : Str) : Option Str :=
  (stemRules.find? (fun r => r.2.any (fun p => infixOfL (lowerL p) name))).map (fun r => r.1)

/-- Set a key in an insertion-ordered association list, the effect of a
Python dict assignment: replace in place when present, append when
absent. -/
def assocSet (l : List (Str × Str)) (k v : Str) : List (Str × Str) :=
  if l.any (fun e => e.1 = k) then l.map (fun e => if e.1 = k then (k, v) else e)
  else l ++ [(k, v)]

/-- State built by the output-renaming loop of separate_stems: the
result dict and the list of (source, destination) file moves performed
by shutil.move. -/
structure ReconcileState where
  result : List (Str × Str)
  moves : List (Str × Str)
deriving DecidableEq, Repr

/-- One iteration of the output-renaming loop (lines 358-377)
restricted to the file's FIRST firing rule: make the raw path absolute
against the output directory when relative, lower-case its path stem,
find the first matching canonical stem, and move the file onto
output_dir/(stem).wav unless it is already exactly that path.  On a
name that fires more than one rule the code goes on to the later rules
as well and crashes (see reconcileRun); on names firing at most one
rule per file this step is the code's exact behavior. -/
def reconcileStep (dir : Str) (st : ReconcileState) (raw : Str) : ReconcileState :=
  let f := if isAbsL raw then raw else osJoinL dir raw
  let nm := lowerL (stemOfPath f)
  match firstMatchStem nm with
  | none => st
  | some stem =>
    let np := osJoinL dir (stem ++ strL ".wav")
    { result := assocSet st.result stem np
      moves := if f = np then st.moves else st.moves ++ [(f, np)] }

/-- The Stem Reconciler's first-firing-rule view: fold the renaming
step over the raw output list, starting from the empty result dict.
Agrees with the faithful reconcileRun on every input whose file names
each fire at most one rule (in particular all-canonical names and
single-stem names), which is the domain of the theorems stated over
it; reconcileRun is the general model. -/
def reconcile (dir : Str) (raws : List Str) : ReconcileState :=
  raws.foldl (reconcileStep dir) ⟨[], []⟩

/-- The mutable state threaded through the full output-renaming loop:
the set of file paths that currently exist in the output directory, the
result dict, and the moves performed so far.  The filesystem starts as
exactly the raw output files the separator just wrote (pre-existing
unrelated files influence only the os.remove of an overwritten
destination, never whether a move's source exists, the result dict or
the raised exception). -/
structure FsState where
  fs : List Str
  result : List (Str × Str)
  moves : List (Str × Str)
deriving DecidableEq, Repr

/-- Outcome of the full renaming loop: normal completion, or the
FileNotFoundError that shutil.move raises when its source path no
longer exists, carrying the missing source and the state at the
raise.  The exception propagates out of separate_stems to main's
handler. -/
inductive ReconcileOutcome where
  | ok (st : FsState)
  | fileNotFound (src : Str) (st : FsState)
deriving DecidableEq, Repr

/-- One rule of the OUTER stem loop applied to one file (lines
365-377).  The break at line 377 exits only the inner pattern loop, so
a rule fires at its first matching pattern and control then continues
with the NEXT rule.  A firing rule with a distinct destination removes
any existing destination file and moves the source; if the source was
already moved away by an earlier firing rule, shutil.move raises
FileNotFoundError. -/
def applyRule (dir f nm : Str) (st : FsState) (rule : Str × List Str) :
    ReconcileOutcome :=
  if rule.2.any (fun p => infixOfL (lowerL p) nm) then
    let np := osJoinL dir (rule.1 ++ strL ".wav")
    if f = np then .ok { st with result := assocSet st.result rule.1 np }
    else if st.fs.contains f then
      .ok { fs := np :: st.fs.filter (fun x => !(x == f) && !(x == np))
            result := assocSet st.result rule.1 np
            moves := st.moves ++ [(f, np)] }
    else .fileNotFound f st
  else .ok st

/-- The outer stem loop for one file: every rule of the table is tried
in order, aborting at the first FileNotFoundError. -/
def runRules (dir f nm : Str) : FsState → List (Str × List Str) → ReconcileOutcome
  | st, [] => .ok st
  | st, rule :: rest =>
    match applyRule dir f nm st rule with
    | .ok st2 => runRules dir f nm st2 rest
    | e => e

/-- The renaming loop over all raw output files (lines 358-377):
absolutize each path, lower-case its stem, and run the full rule
table; an exception aborts the remaining files. -/
def reconcileFiles (dir : Str) : FsState → List Str → ReconcileOutcome
  | st, [] => .ok st
  | st, raw :: rest =>
    let f := if isAbsL raw then raw else osJoinL dir raw
    let nm := lowerL (stemOfPath f)
    match runRules dir f nm st stemRules with
    | .ok st2 => reconcileFiles dir st2 rest
    | e => e

/-- The faithful Stem Reconciler: run the full renaming loop starting
from a filesystem holding exactly the (absolutized) raw output files
and an empty result dict. -/
def reconcileRun (dir : Str) (raws : List Str) : ReconcileOutcome :=
  reconcileFiles dir
    ⟨raws.map (fun r => if isAbsL r then r else osJoinL dir r), [], []⟩ raws

/-- Python int() applied to a float value: truncation toward zero,
floor for non-negative values and ceiling for negative ones. -/
noncomputable def pyInt (x : ℝ) : ℤ := if 0 ≤ x then ⌊x⌋ else ⌈x⌉

/-- The loading-phase asymptotic curve of loading_progress_thread
(line 225): 1 - 0.5 to the power elapsed/15. -/
noncomputable def loadingRatio (e : ℝ) : ℝ := 1 - (1 / 2 : ℝ) ^ (e / 15)

/-- The percent computed and emitted by one tick of
loading_progress_thread (lines 226-227): int(1 + ratio * 9) capped at
10.  The thread keeps no memory of its previous emission. -/
noncomputable def loadingPercent (e : ℝ) : ℤ :=
  min 10 (pyInt (1 + loadingRatio e * 9))

/-- The loading estimator's emitted percent sequence over the elapsed
values its ticks sample from the clock: a stateless map, since the
thread body recomputes the percent from elapsed time alone. -/
noncomputable def loadingEmits (ticks : List ℝ) : List ℤ :=
  ticks.map loadingPercent

/-- The raw percent one processing tick computes before clamping
(progress_thread lines 297-301): the asymptotic curve toward 88 when an
estimate is available, otherwise min(88, int(12 + elapsed * 2)). -/
noncomputable def procRaw (est e : ℝ) : ℤ :=
  if 0 < est then pyInt (12 + (1 - (1 / 2 : ℝ) ^ (e / est)) * 76)
  else min 88 (pyInt (12 + e * 2))

/-- One processing tick after the clamp of line 303:
min(88, max(last_percent, percent)). -/
noncomputable def procStep (est : ℝ) (last : ℤ) (e : ℝ) : ℤ :=
  min 88 (max last (procRaw est e))

/-- The processing estimator's emissions from a given last_percent over
the elapsed values its ticks sample. -/
noncomputable def procEmitsAux (est : ℝ) : ℤ → List ℝ → List ℤ
  | _, [] => []
  | last, e :: es => procStep est last e :: procEmitsAux est (procStep est last e) es

/-- The processing estimator's emitted percent sequence: last_percent
starts at 11 (line 291). -/
noncomputable def procEmits (est : ℝ) (ticks : List ℝ) : List ℤ :=
  procEmitsAux est 11 ticks

/-- The processing-time estimate of lines 279-284: half the audio
duration on a GPU-class backend, three times it on CPU. -/
noncomputable def estimatedTime (backend : Str) (durationSeconds : ℝ) : ℝ :=
  if backend = strL "cuda" ∨ backend = strL "directml" ∨ backend = strL "mps" then
    durationSeconds * (1 / 2)
  else durationSeconds * 3

/-- One line of standard output: either a PROGRESS line (its stage text,
being foreign-formatted elapsed-time strings, is not modelled) or the
final JSON object printed by main. -/
inductive OutLine where
  | progress (p : ℤ)
  | jsonResult (m : List (Str × Str))
deriving DecidableEq

/-- Standard-output trace of a successful run, in emission order: the
synchronous checkpoints 0, 1, 3 of separate_stems, the loading
estimator's ticks (linearized into the loading window they occupy), the
checkpoint 11, the processing estimator's ticks, the checkpoints 92 and
100, and finally the JSON result line printed by main after
separate_stems returns.  Background emissions stop once the foreground
sets the corresponding stop event, per the thread loop conditions.
A successful run is one whose renaming loop completes (reconcileRun
returns ok); on such runs the result dict equals the reconcile
first-firing-rule view used here, since a second firing rule on one
file would have raised instead. -/
noncomputable def successStdout (ldTicks prTicks : List ℝ) (est : ℝ)
    (dir : Str) (raws : List Str) : List OutLine :=
  [.progress 0, .progress 1, .progress 3]
    ++ (loadingEmits ldTicks).map OutLine.progress
    ++ [.progress 11]
    ++ (procEmits est prTicks).map OutLine.progress
    ++ [.progress 92, .progress 100, .jsonResult (reconcile dir raws).result]

/-- Is an output line the JSON result line? -/
def OutLine.isJson : OutLine → Bool
  | .jsonResult _ => true
  | .progress _ => false

/-- Percent value of a PROGRESS output line, none for the JSON line. -/
def OutLine.progVal : OutLine → Option ℤ
  | .progress p => some p
  | .jsonResult _ => none

/-- Control-flow outcome of one run of separate_stems under main's
exception handler, as a function of the results of the two foreign
calls separator.load_model (line 259) and separator.separate
(line 337) and of the renaming loop that follows them.
Records whether each estimator's stop event was set and
its thread joined, whether main's handler logged an ERROR line, and the
process exit code.  load_model is NOT wrapped in any cleanup: an
exception there skips lines 262-263, so the loading stop event is never
set and the daemonic loading thread is left running until process exit.
separator.separate is wrapped in try/finally (lines 336-341), so its
stop event is set and its thread joined on both exit paths. -/
structure RunOutcome where
  loadingStopSet : Bool
  loadingJoined : Bool
  processingStopSet : Bool
  processingJoined : Bool
  errorLogged : Bool
  exitCode : ℕ
deriving DecidableEq, Repr

/-- Embedding of the lifecycle of separate_stems (lines 240-380)
composed with main's try/except (lines 462-472), parameterized by the
outcomes of the two blocking foreign calls and, when both succeed, by
the output list handed to the renaming loop.  After a successful
separation the estimators are already stopped (the try/finally of lines
336-341 ran), and the renaming loop of lines 358-377 executes: if it
raises FileNotFoundError (see reconcileRun) the exception propagates to
main's handler, which logs it and exits 1; only a completed loop
reaches the JSON print and exit 0. -/
def runSeparation (loadResult : Except Str Unit)
    (sepResult : Except Str (List Str)) (dir : Str) : RunOutcome :=
  match loadResult with
  | .error _ =>
    { loadingStopSet := false, loadingJoined := false
      processingStopSet := false, processingJoined := false
      errorLogged := true, exitCode := 1 }
  | .ok _ =>
    match sepResult with
    | .error _ =>
      { loadingStopSet := true, loadingJoined := true
        processingStopSet := true, processingJoined := true
        errorLogged := true, exitCode := 1 }
    | .ok files =>
      match reconcileRun dir files with
      | .ok _ =>
        { loadingStopSet := true, loadingJoined := true
          processingStopSet := true, processingJoined := true
          errorLogged := false, exitCode := 0 }
      | .fileNotFound _ _ =>
        { loadingStopSet := true, loadingJoined := true
          processingStopSet := true, processingJoined := true
          errorLogged := true, exitCode := 1 }

/-- Embedding of main's handling of the deprecated gpu-id option
(lines 453-460): when present it overrides the device token after a
deprecation warning, negative values meaning "cpu" and non-negative N
meaning "cuda:" followed by N.  The Bool records whether the
deprecation warning was printed. -/
def effectiveDevice (deviceArg : Str) (gpuId : Option ℤ) : Str × Bool :=
  match gpuId with
  | none => (deviceArg, false)
  | some g => (if g < 0 then strL "cpu" else strL "cuda:" ++ intToStr g, true)

/-! Helper lemmas. -/

theorem isPrefixOf_of_append_isPrefixOf (p q l : Str)
    (h : (p ++ q).isPrefixOf l = true) : p.isPrefixOf l = true := by
  induction p generalizing l with
  | nil => simp
  | cons a p ih =>
    cases l with
    | nil => simp at h
    | cons b l =>
      rw [List.cons_append, List.isPrefixOf_cons₂] at h
      rw [List.isPrefixOf_cons₂]
      rcases Bool.and_eq_true_iff.mp h with ⟨h1, h2⟩
      exact Bool.and_eq_true_iff.mpr ⟨h1, ih l h2⟩

theorem torchDevice_shape (t : Str) (n : ℕ)
    (ht : torchDevice t = .ok (.cuda (some n))) :
    (strL "cuda").isPrefixOf t = true
    ∧ t ≠ strL "auto" ∧ t ≠ strL "cpu"
    ∧ ¬ (strL "directml").isPrefixOf t = true ∧ t ≠ strL "mps" := by
  have hpre : (strL "cuda").isPrefixOf t = true := by
    unfold torchDevice at ht
    by_cases h1 : t = strL "cuda"
    · rw [if_pos h1] at ht
      simp at ht
    · rw [if_neg h1] at ht
      by_cases h2 : (strL "cuda:").isPrefixOf t = true
      · exact isPrefixOf_of_append_isPrefixOf (strL "cuda") (strL ":") t h2
      · rw [if_neg h2] at ht
        simp at ht
  refine ⟨hpre, ?_, ?_, ?_, ?_⟩
  · intro he; rw [he] at hpre; exact absurd hpre (by decide)
  · intro he; rw [he] at hpre; exact absurd hpre (by decide)
  · intro hd
    have : t ≠ [] := by intro he; rw [he] at hpre; exact absurd hpre (by decide)
    cases t with
    | nil => exact this rfl
    | cons a t =>
      rw [show strL "cuda" = 'c' :: strL "uda" from rfl, List.isPrefixOf_cons₂] at hpre
      rw [show strL "directml" = 'd' :: strL "irectml" from rfl, List.isPrefixOf_cons₂] at hd
      rcases Bool.and_eq_true_iff.mp hpre with ⟨h1, _⟩
      rcases Bool.and_eq_true_iff.mp hd with ⟨h2, _⟩
      have e1 : a = 'c' := (beq_iff_eq.mp (by simpa using h1)).symm
      have e2 : a = 'd' := (beq_iff_eq.mp (by simpa using h2)).symm
      rw [e1] at e2
      exact absurd e2 (by decide)
  · intro he; rw [he] at hpre; exact absurd hpre (by decide)

/-! Claim theorems. -/

/-- C1 (code_bug evidence): on the raw outputs Vocals.flac and
no_vocals.flac the run never produces the claimed mapping.  The vocals
rule fires first on the lower-cased stem "no_vocals" (the pattern
"vocals" is a substring of it), so the no_vocals file is moved onto
vocals.wav, clobbering the vocals stem; since the break of line 377
exits only the inner pattern loop, the outer loop then reaches the
other rule, whose no_vocals pattern also fires, and the second
shutil.move from the already-moved source raises FileNotFoundError, so
the process logs the error and exits 1 with no result at all.  At the
raise the state shows both moves landed on vocals.wav and the result
dict holds only the vocals key.  The claim (and the spec, and the
code's own pattern table listing no_vocals under other) intend
no_vocals to land cleanly in the other bucket. -/
theorem c1_no_vocals_crashes_reconciler :
    reconcileRun (strL "/out") [strL "Vocals.flac", strL "no_vocals.flac"]
      = .fileNotFound (strL "/out/no_vocals.flac")
          ⟨[strL "/out/vocals.wav"],
           [(strL "vocals", strL "/out/vocals.wav")],
           [(strL "/out/Vocals.flac", strL "/out/vocals.wav"),
            (strL "/out/no_vocals.flac", strL "/out/vocals.wav")]⟩
    ∧ (runSeparation (.ok ()) (.ok [strL "Vocals.flac", strL "no_vocals.flac"])
        (strL "/out")).exitCode = 1
    ∧ (runSeparation (.ok ()) (.ok [strL "Vocals.flac", strL "no_vocals.flac"])
        (strL "/out")).errorLogged = true
    ∧ firstMatchStem (strL "no_vocals") = some (strL "vocals") := by
  refine ⟨by decide, by decide, by decide, by decide⟩

/-- C2 (counterexample): with CUDA available, the token "cuda:abc" — a
recognized kind-prefix followed by a non-numeric index — is passed
verbatim to the foreign torch.device constructor, which raises; device
resolution therefore does not return a descriptor for every token. -/
theorem c2_counterexample :
    (parseDeviceString ⟨true, 1, false, false, 0, false⟩ (strL "cuda:abc")).isOk
      = false := by decide

/-- C2 (amended): device resolution can only raise when the normalized
token starts with "cuda" and CUDA is available (the one branch that
forwards the raw token to torch.device without protection); every other
token resolves without an exception, in the worst case to CPU. -/
theorem c2_amended (env : Env) (s : Str)
    (h : (parseDeviceString env s).isOk = false) :
    (strL "cuda").isPrefixOf (lowerL (trimL s)) = true
    ∧ env.cudaAvailable = true := by
  unfold parseDeviceString parseDeviceCore at h
  repeat' split at h
  all_goals simp_all [Except.isOk, Except.toBool]

/-- C2 (witness): the amended theorem applied to the concrete failing
token. -/
theorem c2_witness :
    (strL "cuda").isPrefixOf (lowerL (trimL (strL "cuda:abc"))) = true
    ∧ Env.cudaAvailable ⟨true, 1, false, false, 0, false⟩ = true :=
  c2_amended ⟨true, 1, false, false, 0, false⟩ (strL "cuda:abc") (by decide)

/-- C3 (counterexample): on a catalog holding only cuda:0 (CUDA
available, device count 1), the out-of-range request "cuda:5" is
returned unchanged as device cuda:5 with no warning — not the claimed
fallback to cuda:0 with a warning. -/
theorem c3_counterexample :
    parseDeviceString ⟨true, 1, false, false, 0, false⟩ (strL "cuda:5")
      = .ok ⟨.cuda (some 5), strL "cuda", false⟩
    ∧ detectAvailableDevices ⟨true, 1, false, false, 0, false⟩
      = [(strL "cpu", strL "CPU"), (strL "cuda:0", strL "GPU")]
    ∧ TorchDevice.cuda (some 5) ≠ TorchDevice.cuda (some 0) := by
  refine ⟨by decide, by decide, by decide⟩

/-- C3 (amended): when CUDA is available, any well-formed explicit
cuda token is resolved to exactly the requested index, with no range
check against the catalog and no warning; the CPU fallback of the cuda
branch happens only when CUDA is unavailable. -/
theorem c3_amended (env : Env) (s : Str) (n : ℕ)
    (hc : env.cudaAvailable = true)
    (ht : torchDevice (lowerL (trimL s)) = .ok (.cuda (some n))) :
    parseDeviceString env s = .ok ⟨.cuda (some n), strL "cuda", false⟩ := by
  obtain ⟨hpre, hne1, hne2, hnd, _⟩ := torchDevice_shape _ n ht
  unfold parseDeviceString parseDeviceCore
  rw [if_neg hne1, if_neg hne2, if_pos hpre, if_pos hc, ht]
  rfl

/-- C3 (witness): the amended theorem at the concrete out-of-range
request of the claim. -/
theorem c3_witness :
    parseDeviceString ⟨true, 1, false, false, 0, false⟩ (strL "cuda:5")
      = .ok ⟨.cuda (some 5), strL "cuda", false⟩ :=
  c3_amended ⟨true, 1, false, false, 0, false⟩ (strL "cuda:5") 5 (by decide) (by decide)

/-- C6 (counterexample): when the foreign model-load call raises, the
loading estimator's stop event is never set (lines 262-263 are
straight-line code after load_model and are skipped by the exception),
so the running background estimator is NOT stopped by any cleanup; the
process still logs the error and exits 1. -/
theorem c6_counterexample :
    (runSeparation (.error (strL "load failed")) (.ok []) (strL "/out")).loadingStopSet
      = false
    ∧ (runSeparation (.error (strL "load failed")) (.ok []) (strL "/out")).errorLogged
      = true
    ∧ (runSeparation (.error (strL "load failed")) (.ok []) (strL "/out")).exitCode
      = 1 := by
  decide

/-- C6 (amended): exceptions from the foreign separation call stop the
processing estimator via the try/finally of lines 336-341 (stop event
set, join with a 1-second timeout), and every foreign-call exception is
logged and makes the process exit 1; but an exception from the foreign
model-load call propagates without the loading estimator's stop event
ever being set — that daemonic thread is only reaped at process exit.
When both foreign calls succeed the exit code is decided by the
renaming loop: exit 0 exactly when reconciliation completes, and a
FileNotFoundError there (multi-match output names) is logged with exit
1 — with both estimators already stopped, since the loop runs after the
finally block. -/
theorem c6_amended (msg : Str) (sr : Except Str (List Str)) (files : List Str)
    (dir : Str) :
    (runSeparation (.ok ()) (.error msg) dir).processingStopSet = true
    ∧ (runSeparation (.ok ()) (.error msg) dir).processingJoined = true
    ∧ (runSeparation (.ok ()) (.error msg) dir).errorLogged = true
    ∧ (runSeparation (.ok ()) (.error msg) dir).exitCode = 1
    ∧ (runSeparation (.error msg) sr dir).errorLogged = true
    ∧ (runSeparation (.error msg) sr dir).exitCode = 1
    ∧ (runSeparation (.error msg) sr dir).loadingStopSet = false
    ∧ (match reconcileRun dir files with
       | .ok _ =>
         (runSeparation (.ok ()) (.ok files) dir).exitCode = 0
         ∧ (runSeparation (.ok ()) (.ok files) dir).errorLogged = false
       | .fileNotFound _ _ =>
         (runSeparation (.ok ()) (.ok files) dir).exitCode = 1
         ∧ (runSeparation (.ok ()) (.ok files) dir).errorLogged = true
         ∧ (runSeparation (.ok ()) (.ok files) dir).processingStopSet = true) := by
  refine ⟨rfl, rfl, rfl, rfl, rfl, rfl, rfl, ?_⟩
  cases h : reconcileRun dir files with
  | ok st =>
    exact ⟨by simp [runSeparation, h], by simp [runSeparation, h]⟩
  | fileNotFound src st =>
    exact ⟨by simp [runSeparation, h], by simp [runSeparation, h],
      by simp [runSeparation, h]⟩

/-- C8 (counterexample): on a Windows host where torch_directml is
importable but reports zero devices, the catalog contains only the CPU
entry, yet the request "auto" returns the DirectML device 0 rather than
CPU — contradicting "returns CPU when no GPU-kind entry exists". -/
theorem c8_counterexample :
    parseDeviceString ⟨false, 0, true, true, 0, false⟩ (strL "auto")
      = .ok ⟨.dml 0, strL "directml", false⟩
    ∧ detectAvailableDevices ⟨false, 0, true, true, 0, false⟩
      = [(strL "cpu", strL "CPU")]
    ∧ firstGpuToken (detectAvailableDevices ⟨false, 0, true, true, 0, false⟩) = none
    ∧ TorchDevice.dml 0 ≠ TorchDevice.cpu := by
  refine ⟨by decide, by decide, by decide, by decide⟩

/-- C9 (counterexample): a successful run with a RELATIVE output
directory writes a result mapping whose paths are not absolute — the
code joins output paths onto the output directory argument without ever
making it absolute. -/
theorem c9_counterexample :
    (reconcile (strL "out") [strL "vocals.wav"]).result
      = [(strL "vocals", strL "out/vocals.wav")]
    ∧ isAbsL (strL "out/vocals.wav") = false := by
  refine ⟨by decide, by decide⟩

/-- C10: the deprecated gpu-id option, when supplied, overrides any
device argument after the deprecation warning: a negative id becomes
the token "cpu" and a non-negative id N becomes "cuda:" followed by N.
The first two concrete conjuncts check the two directions on sample
inputs. -/
theorem c10_gpu_id_override (d1 d2 : Str) (g : ℤ) :
    effectiveDevice (strL "auto") (some (-1)) = (strL "cpu", true)
    ∧ effectiveDevice (strL "auto") (some 2) = (strL "cuda:2", true)
    ∧ effectiveDevice d1 (some g) = effectiveDevice d2 (some g)
    ∧ (effectiveDevice d1 (some g)).2 = true
    ∧ effectiveDevice d1 (some g)
        = ((if g < 0 then strL "cpu" else strL "cuda:" ++ intToStr g), true)
    ∧ effectiveDevice d1 none = (d1, false) := by
  refine ⟨by decide, by decide, rfl, rfl, rfl, rfl⟩

/-! Helper lemmas about the estimator arithmetic. -/

theorem pyInt_mono {x y : ℝ} (h : x ≤ y) : pyInt x ≤ pyInt y := by
  unfold pyInt
  by_cases hx : 0 ≤ x
  · rw [if_pos hx, if_pos (le_trans hx h)]
    exact Int.floor_mono h
  · rw [if_neg hx]
    by_cases hy : 0 ≤ y
    · rw [if_pos hy]
      have hx' : x ≤ 0 := le_of_lt (lt_of_not_le hx)
      exact le_trans (Int.ceil_le.mpr (by exact_mod_cast hx')) (Int.floor_nonneg.mpr hy)
    · rw [if_neg hy]
      exact Int.ceil_mono h

theorem pyInt_of_nonneg {x : ℝ} (h : 0 ≤ x) : pyInt x = ⌊x⌋ := if_pos h

theorem le_pyInt {n : ℤ} {x : ℝ} (h0 : 0 ≤ x) (h : (n : ℝ) ≤ x) : n ≤ pyInt x := by
  rw [pyInt_of_nonneg h0]
  exact Int.le_floor.mpr h

theorem pyInt_lt {n : ℤ} {x : ℝ} (h0 : 0 ≤ x) (h : x < (n : ℝ)) : pyInt x < n := by
  rw [pyInt_of_nonneg h0]
  exact Int.floor_lt.mpr h

theorem halfPow_pos (t : ℝ) : 0 < (1 / 2 : ℝ) ^ t :=
  Real.rpow_pos_of_pos (by norm_num) t

theorem halfPow_le_one {t : ℝ} (ht : 0 ≤ t) : (1 / 2 : ℝ) ^ t ≤ 1 :=
  Real.rpow_le_one (by norm_num) (by norm_num) ht

theorem halfPow_anti {t u : ℝ} (h : t ≤ u) : (1 / 2 : ℝ) ^ u ≤ (1 / 2 : ℝ) ^ t :=
  Real.rpow_le_rpow_of_exponent_ge (by norm_num) (by norm_num) h

theorem loadingRatio_mono {e1 e2 : ℝ} (h : e1 ≤ e2) :
    loadingRatio e1 ≤ loadingRatio e2 := by
  unfold loadingRatio
  have hd : e1 / 15 ≤ e2 / 15 := by linarith
  have := halfPow_anti hd
  linarith

theorem loadingRatio_nonneg {e : ℝ} (he : 0 ≤ e) : 0 ≤ loadingRatio e := by
  unfold loadingRatio
  have := halfPow_le_one (t := e / 15) (by positivity)
  linarith

theorem loadingRatio_lt_one (e : ℝ) : loadingRatio e < 1 := by
  unfold loadingRatio
  have := halfPow_pos (e / 15)
  linarith

theorem loadingPercent_mono {e1 e2 : ℝ} (h : e1 ≤ e2) :
    loadingPercent e1 ≤ loadingPercent e2 := by
  unfold loadingPercent
  have hr := loadingRatio_mono h
  exact min_le_min le_rfl (pyInt_mono (by linarith))

theorem loadingPercent_bounds {e : ℝ} (he : 0 ≤ e) :
    1 ≤ loadingPercent e ∧ loadingPercent e < 10 := by
  unfold loadingPercent
  have h0 := loadingRatio_nonneg he
  have h1 := loadingRatio_lt_one e
  have hx0 : (0 : ℝ) ≤ 1 + loadingRatio e * 9 := by linarith
  have hlo : (1 : ℤ) ≤ pyInt (1 + loadingRatio e * 9) :=
    le_pyInt hx0 (by push_cast; linarith)
  have hhi : pyInt (1 + loadingRatio e * 9) < 10 :=
    pyInt_lt hx0 (by push_cast; linarith)
  exact ⟨le_min (by norm_num) hlo, lt_of_le_of_lt (min_le_right _ _) hhi⟩

theorem loadingPercent_at_fifteen : loadingPercent 15 = 5 := by
  unfold loadingPercent loadingRatio
  have h1 : ((15 : ℝ) / 15) = 1 := by norm_num
  rw [h1, Real.rpow_one]
  have h2 : (1 + (1 - (1 / 2 : ℝ)) * 9) = 11 / 2 := by norm_num
  rw [h2, pyInt_of_nonneg (by norm_num)]
  have h3 : ⌊(11 / 2 : ℝ)⌋ = 5 := by
    rw [Int.floor_eq_iff]
    norm_num
  rw [h3]
  omega

theorem loadingPercent_at_zero : loadingPercent 0 = 1 := by
  unfold loadingPercent loadingRatio
  have h1 : ((0 : ℝ) / 15) = 0 := by norm_num
  rw [h1, Real.rpow_zero]
  have h2 : (1 + (1 - (1 : ℝ)) * 9) = 1 := by norm_num
  rw [h2, pyInt_of_nonneg (by norm_num)]
  have h3 : ⌊(1 : ℝ)⌋ = 1 := by norm_num
  rw [h3]
  omega

theorem procEmitsAux_chain' (est : ℝ) (ticks : List ℝ) :
    ∀ last : ℤ, last ≤ 88 →
      (last :: procEmitsAux est last ticks).Chain' (· ≤ ·) := by
  induction ticks with
  | nil => intro last _; simp [procEmitsAux]
  | cons e es ih =>
    intro last hl
    rw [procEmitsAux, List.chain'_cons]
    refine ⟨?_, ih _ (min_le_left _ _)⟩
    unfold procStep
    exact le_min hl (le_max_left _ _)

theorem procRaw_bounds_pos {est e : ℝ} (hest : 0 < est) (he : 0 ≤ e) :
    12 ≤ procRaw est e ∧ procRaw est e ≤ 87 := by
  unfold procRaw
  rw [if_pos hest]
  have hp := halfPow_pos (e / est)
  have hl := halfPow_le_one (t := e / est) (by positivity)
  set r : ℝ := 1 - (1 / 2 : ℝ) ^ (e / est) with hr
  have hr0 : 0 ≤ r := by rw [hr]; linarith
  have hr1 : r < 1 := by rw [hr]; linarith
  have hm0 : 0 ≤ r * 76 := mul_nonneg hr0 (by norm_num)
  have hm1 : r * 76 < 76 := by nlinarith
  have hx0 : (0 : ℝ) ≤ 12 + r * 76 := by linarith
  constructor
  · exact le_pyInt hx0 (by push_cast; linarith)
  · have := pyInt_lt hx0 (show (12 : ℝ) + r * 76 < ((88 : ℤ) : ℝ) by push_cast; linarith)
    omega

theorem procRaw_bounds_zero {e : ℝ} (he : 0 ≤ e) :
    12 ≤ procRaw 0 e ∧ procRaw 0 e ≤ 88 := by
  unfold procRaw
  rw [if_neg (lt_irrefl 0)]
  have hm : (0 : ℝ) ≤ e * 2 := by linarith
  constructor
  · exact le_min (by norm_num) (le_pyInt (by linarith) (by push_cast; linarith))
  · exact min_le_left _ _

theorem procEmitsAux_band (est : ℝ) (B : ℤ)
    (hraw : ∀ e : ℝ, 0 ≤ e → 12 ≤ procRaw est e ∧ procRaw est e ≤ B) :
    ∀ ticks : List ℝ, (∀ t ∈ ticks, 0 ≤ t) →
      ∀ last : ℤ, last ≤ B →
        ∀ p ∈ procEmitsAux est last ticks, 12 ≤ p ∧ p ≤ B := by
  intro ticks
  induction ticks with
  | nil => intro _ last _ p hp; simp [procEmitsAux] at hp
  | cons e es ih =>
    intro hts last hl p hp
    have he : 0 ≤ e := hts e (by simp)
    obtain ⟨hr1, hr2⟩ := hraw e he
    have hstep : 12 ≤ procStep est last e ∧ procStep est last e ≤ B := by
      unfold procStep
      constructor
      · exact le_min (by omega) (le_trans hr1 (le_max_right _ _))
      · exact le_trans (min_le_right _ _) (max_le hl hr2)
    rw [procEmitsAux] at hp
    rcases List.mem_cons.mp hp with h | h
    · rw [h]; exact hstep
    · exact ih (fun t ht => hts t (by simp [ht])) _ hstep.2 p h

theorem procEmits_one_zero : procEmits 1 [0] = [12] := by
  unfold procEmits procEmitsAux procStep procRaw
  rw [if_pos one_pos]
  have h1 : ((0 : ℝ) / 1) = 0 := by norm_num
  rw [h1, Real.rpow_zero]
  have h2 : (12 + (1 - (1 : ℝ)) * 76) = 12 := by norm_num
  rw [h2, pyInt_of_nonneg (by norm_num)]
  have h3 : ⌊(12 : ℝ)⌋ = 12 := by norm_num
  rw [h3]
  decide

theorem procEmits_zero_38 : procEmits 0 [38] = [88] := by
  unfold procEmits procEmitsAux procStep procRaw
  rw [if_neg (lt_irrefl 0)]
  have h1 : (12 + (38 : ℝ) * 2) = 88 := by norm_num
  rw [h1, pyInt_of_nonneg (by norm_num)]
  have h2 : ⌊(88 : ℝ)⌋ = 88 := by norm_num
  rw [h2]
  decide

/-- C4 (counterexample): the loading estimator keeps no memory of its
last emitted percent — its thread body recomputes the percent from the
sampled clock alone — so when consecutive ticks sample a regressing
wall clock (time.time is not monotonic), its emissions regress: ticks
at elapsed 15 s then 0 s emit 5 then 1.  The claimed per-estimator
clamp to the last emitted percent therefore does not exist in the
loading estimator. -/
theorem c4_counterexample :
    loadingEmits [15, 0] = [5, 1]
    ∧ ¬ (loadingEmits [15, 0]).Chain' (· ≤ ·) := by
  have h : loadingEmits [15, 0] = [5, 1] := by
    unfold loadingEmits
    rw [List.map_cons, List.map_cons, List.map_nil,
      loadingPercent_at_fifteen, loadingPercent_at_zero]
  refine ⟨h, ?_⟩
  rw [h]
  norm_num [List.chain'_cons]

/-- C4 (amended): the processing estimator clamps against its last
emitted percent (line 303), so its emission sequence is non-decreasing
for EVERY sequence of sampled elapsed times; the loading estimator has
no such clamp, but its percent formula is monotone in elapsed time, so
its emissions are non-decreasing whenever its ticks sample a
non-decreasing clock. -/
theorem c4_amended :
    (∀ ticks : List ℝ, ticks.Chain' (· ≤ ·) →
      (loadingEmits ticks).Chain' (· ≤ ·))
    ∧ ∀ (est : ℝ) (ticks : List ℝ), (procEmits est ticks).Chain' (· ≤ ·) := by
  constructor
  · intro ticks h
    unfold loadingEmits
    rw [List.chain'_map]
    exact List.Chain'.imp (fun a b hab => loadingPercent_mono hab) h
  · intro est ticks
    exact (procEmitsAux_chain' est ticks 11 (by norm_num)).tail

/-- C4 (witness): the amended theorem applied to concrete tick
sequences. -/
theorem c4_witness :
    (loadingEmits [0, 15]).Chain' (· ≤ ·)
    ∧ (procEmits 1 [3, 1]).Chain' (· ≤ ·) :=
  ⟨c4_amended.1 [0, 15] (by norm_num [List.chain'_cons]),
   c4_amended.2 1 [3, 1]⟩

/-- C5 (counterexample): when the audio duration is reported as 0 the
GPU estimate is 0 x 0.5 = 0 seconds, the processing estimator takes its
fallback branch min(88, int(12 + elapsed x 2)), and a tick at elapsed
38 s emits exactly 88 — which is NOT inside the claimed half-open
processing band [12, 88). -/
theorem c5_counterexample :
    estimatedTime (strL "cuda") 0 = 0
    ∧ procEmits 0 [38] = [88]
    ∧ ¬ ((88 : ℤ) < 88) := by
  refine ⟨?_, procEmits_zero_38, by omega⟩
  unfold estimatedTime
  rw [if_pos (by decide)]
  norm_num

/-- C5 (amended): with non-negative sampled elapsed times the loading
estimator emits inside [1, 10), and the processing estimator emits
inside [12, 88) whenever the duration estimate is positive; in the
zero-estimate fallback its emissions stay inside [12, 88], attaining 88
at most.  The foreground task's synchronous checkpoints are exactly
0, 1, 3, 11, 92, 100 in order. -/
theorem c5_amended :
    (∀ e : ℝ, 0 ≤ e → 1 ≤ loadingPercent e ∧ loadingPercent e < 10)
    ∧ (∀ est : ℝ, 0 < est → ∀ ticks : List ℝ, (∀ t ∈ ticks, 0 ≤ t) →
        ∀ p ∈ procEmits est ticks, 12 ≤ p ∧ p < 88)
    ∧ (∀ ticks : List ℝ, (∀ t ∈ ticks, 0 ≤ t) →
        ∀ p ∈ procEmits 0 ticks, 12 ≤ p ∧ p ≤ 88)
    ∧ (∀ (est : ℝ) (dir : Str) (raws : List Str),
        (successStdout [] [] est dir raws).filterMap OutLine.progVal
          = [0, 1, 3, 11, 92, 100]) := by
  refine ⟨fun e he => loadingPercent_bounds he, ?_, ?_, ?_⟩
  · intro est hest ticks hts p hp
    have h := procEmitsAux_band est 87
      (fun e he => procRaw_bounds_pos hest he) ticks hts 11 (by omega) p hp
    omega
  · intro ticks hts p hp
    exact procEmitsAux_band 0 88
      (fun e he => procRaw_bounds_zero he) ticks hts 11 (by omega) p hp
  · intro est dir raws
    rfl

/-- C5 (witness): the amended theorem instantiated at concrete elapsed
samples, including the zero-estimate tick that attains 88. -/
theorem c5_witness :
    (1 ≤ loadingPercent 0 ∧ loadingPercent 0 < 10)
    ∧ (12 ≤ (12 : ℤ) ∧ (12 : ℤ) < 88)
    ∧ (12 ≤ (88 : ℤ) ∧ (88 : ℤ) ≤ 88)
    ∧ (successStdout [] [] 1 (strL "/out") []).filterMap OutLine.progVal
        = [0, 1, 3, 11, 92, 100] :=
  ⟨c5_amended.1 0 le_rfl,
   c5_amended.2.1 1 one_pos [0] (by norm_num) 12
     (by rw [procEmits_one_zero]; exact List.mem_singleton.mpr rfl),
   c5_amended.2.2.1 [38] (by norm_num) 88
     (by rw [procEmits_zero_38]; exact List.mem_singleton.mpr rfl),
   c5_amended.2.2.2 1 (strL "/out") []⟩

/-! Helper lemmas about paths and the reconciler. -/

theorem takeWhile_append_of_all {p : Char → Bool} (l₁ l₂ : Str)
    (h : ∀ x ∈ l₁, p x = true) :
    (l₁ ++ l₂).takeWhile p = l₁ ++ l₂.takeWhile p := by
  induction l₁ with
  | nil => simp
  | cons a l ih =>
    have ha := h a (by simp)
    simp [List.takeWhile_cons, ha, ih (fun x hx => h x (by simp [hx]))]

theorem takeWhile_of_all {p : Char → Bool} (l : Str) (h : ∀ x ∈ l, p x = true) :
    l.takeWhile p = l := by
  have := takeWhile_append_of_all l [] h
  simpa using this

theorem baseNameL_no_slash {b : Str} (h : ∀ c ∈ b, (c != '/') = true) :
    baseNameL b = b := by
  unfold baseNameL
  rw [takeWhile_of_all b.reverse (fun c hc => h c (List.mem_reverse.mp hc)),
    List.reverse_reverse]

theorem baseNameL_osJoin (dir b : Str) (h : ∀ c ∈ b, (c != '/') = true) :
    baseNameL (osJoinL dir b) = b := by
  unfold osJoinL
  by_cases h1 : isAbsL b = true
  · rw [if_pos h1]
    exact baseNameL_no_slash h
  · rw [if_neg h1]
    by_cases h2 : dir = []
    · rw [if_pos h2]
      exact baseNameL_no_slash h
    · rw [if_neg h2]
      by_cases h3 : dir.getLastD ' ' = '/'
      · rw [if_pos h3]
        unfold baseNameL
        rw [List.reverse_append,
          takeWhile_append_of_all b.reverse dir.reverse
            (fun c hc => h c (List.mem_reverse.mp hc))]
        have hrev : dir.reverse.takeWhile (fun c => c != '/') = [] := by
          cases hd : dir.reverse with
          | nil => simp
          | cons c t =>
            have h4 : dir.getLast? = some c := by
              rw [List.getLast?_eq_head?_reverse, hd]
              rfl
            have h5 : c = '/' := by
              have h6 := h3
              rw [List.getLastD_eq_getLast?, h4] at h6
              simpa using h6
            rw [List.takeWhile_cons, h5]
            simp
        rw [hrev, List.append_nil, List.reverse_reverse]
      · rw [if_neg h3]
        unfold baseNameL
        rw [List.reverse_append, List.reverse_cons, List.append_assoc,
          takeWhile_append_of_all b.reverse (['/'] ++ dir.reverse)
            (fun c hc => h c (List.mem_reverse.mp hc))]
        have hrev : (['/'] ++ dir.reverse).takeWhile (fun c => c != '/') = [] := by
          simp [List.takeWhile_cons]
        rw [hrev, List.append_nil, List.reverse_reverse]

theorem stem_canonical_eval (dir : Str) (s : Str)
    (hs : s ∈ stemRules.map (fun r => r.1)) :
    isAbsL (s ++ strL ".wav") = false
    ∧ lowerL (stemOfPath (osJoinL dir (s ++ strL ".wav"))) = s
    ∧ firstMatchStem s = some s := by
  have hbase : ∀ t : Str, (∀ c ∈ t ++ strL ".wav", (c != '/') = true) →
      stemOfPath (osJoinL dir (t ++ strL ".wav")) = stemL (t ++ strL ".wav") := by
    intro t ht
    unfold stemOfPath
    rw [baseNameL_osJoin dir _ ht]
  simp only [stemRules, List.map_cons, List.map_nil, List.mem_cons,
    List.not_mem_nil, or_false] at hs
  rcases hs with h | h | h | h | h | h <;> subst h <;>
    refine ⟨by decide, ?_, by decide⟩ <;> rw [hbase _ (by decide)] <;> decide

theorem assocSet_of_not_mem (l : List (Str × Str)) (k v : Str)
    (h : l.any (fun e => e.1 = k) = false) :
    assocSet l k v = l ++ [(k, v)] := by
  unfold assocSet
  rw [if_neg]
  simp [h]

theorem reconcile_canonical_aux (dir : Str) :
    ∀ (l : List Str) (acc : ReconcileState),
      (∀ s ∈ l, s ∈ stemRules.map (fun r => r.1)) → l.Nodup →
      (∀ s ∈ l, acc.result.any (fun e => e.1 = s) = false) →
      List.foldl (reconcileStep dir) acc (l.map (fun s => s ++ strL ".wav"))
        = ⟨acc.result ++ l.map (fun s => (s, osJoinL dir (s ++ strL ".wav"))),
           acc.moves⟩ := by
  intro l
  induction l with
  | nil => intro acc _ _ _; simp
  | cons s rest ih =>
    intro acc hmem hnd hkeys
    rw [List.map_cons, List.foldl_cons]
    obtain ⟨habs, hstem, hmatch⟩ := stem_canonical_eval dir s (hmem s (by simp))
    have hstep : reconcileStep dir acc (s ++ strL ".wav")
        = ⟨acc.result ++ [(s, osJoinL dir (s ++ strL ".wav"))], acc.moves⟩ := by
      unfold reconcileStep
      rw [if_neg (by simp [habs])]
      dsimp only
      rw [hstem, hmatch]
      dsimp only
      rw [assocSet_of_not_mem _ _ _ (hkeys s (by simp)), if_pos rfl]
    rw [hstep]
    rcases List.nodup_cons.mp hnd with ⟨hsnot, hndr⟩
    rw [ih ⟨acc.result ++ [(s, osJoinL dir (s ++ strL ".wav"))], acc.moves⟩
      (fun t ht => hmem t (by simp [ht])) hndr ?_]
    · simp
    · intro t ht
      rw [List.any_append]
      have h1 := hkeys t (by simp [ht])
      have h2 : ¬ s = t := fun he => hsnot (he ▸ ht)
      simp [h1, h2]

/-- C7: the Stem Reconciler is idempotent on already-canonical inputs —
for any duplicate-free list of canonical stem names, reconciling the
files (stem).wav inside the output directory yields the mapping sending
each stem to its own existing path and performs no file moves. -/
theorem c7_idempotent (dir : Str) (l : List Str)
    (hmem : ∀ s ∈ l, s ∈ stemRules.map (fun r => r.1))
    (hnd : l.Nodup) :
    reconcile dir (l.map (fun s => s ++ strL ".wav"))
      = ⟨l.map (fun s => (s, osJoinL dir (s ++ strL ".wav"))), []⟩ := by
  unfold reconcile
  rw [reconcile_canonical_aux dir l ⟨[], []⟩ hmem hnd (fun s _ => rfl)]
  simp

/-- C7 (witness): the theorem at the concrete canonical four-stem
output list of the claim. -/
theorem c7_witness :
    reconcile (strL "/stems")
        ([strL "vocals", strL "drums", strL "bass", strL "other"].map
          (fun s => s ++ strL ".wav"))
      = ⟨[strL "vocals", strL "drums", strL "bass", strL "other"].map
          (fun s => (s, osJoinL (strL "/stems") (s ++ strL ".wav"))), []⟩ :=
  c7_idempotent (strL "/stems") [strL "vocals", strL "drums", strL "bass", strL "other"]
    (by decide) (by decide)

theorem fgt_cons (x : Str × Str) (rest : List (Str × Str))
    (hx : ¬ x.1 = strL "cpu") :
    firstGpuToken ((strL "cpu", strL "CPU") :: x :: rest) = some x.1 := by
  unfold firstGpuToken
  rw [List.filter_cons, if_neg (by simp), List.filter_cons, if_pos (by simp [hx])]
  rfl

/-- C8 (amended): under the real-world environment consistency
assumptions (CUDA available implies at least one CUDA device, an
importable torch_directml on Windows reports at least one device, and
MPS never coexists with Windows), the "auto" request resolves to the
first GPU-kind catalog entry — CUDA before DirectML before MPS — and to
CPU when the catalog has no GPU entry, always without a warning.
Dropping the DirectML device-count assumption breaks the
correspondence, as the counterexample shows. -/
theorem c8_amended (env : Env)
    (h1 : env.cudaAvailable = true → 1 ≤ env.cudaCount)
    (h2 : env.isWindows = true → env.dmlImportable = true → 1 ≤ env.dmlCount)
    (h3 : ¬ (env.isWindows = true ∧ env.mpsAvailable = true)) :
    (match firstGpuToken (detectAvailableDevices env) with
     | some t => ∃ r : Resolved, parseDeviceString env (strL "auto") = .ok r
         ∧ deviceToken r.device = t ∧ r.warned = false
     | none => parseDeviceString env (strL "auto") = .ok ⟨.cpu, strL "cpu", false⟩) := by
  obtain ⟨ca, cc, w, dm, dc, mp⟩ := env
  simp only at h1 h2 h3
  cases ca with
  | true =>
    have hcc := h1 rfl
    obtain ⟨k, hk⟩ : ∃ k, cc = k + 1 := ⟨cc - 1, by omega⟩
    subst hk
    have hcat : firstGpuToken (detectAvailableDevices ⟨true, k + 1, w, dm, dc, mp⟩)
        = some (strL "cuda:" ++ digitsOfNat 0) := by
      unfold detectAvailableDevices
      dsimp only
      rw [List.range_succ_eq_map, List.map_cons, if_pos rfl, List.cons_append,
        List.cons_append]
      exact fgt_cons _ _ (by decide)
    rw [hcat]
    exact ⟨⟨.cuda (some 0), strL "cuda", false⟩, rfl, rfl, rfl⟩
  | false =>
    cases w with
    | true =>
      have hmp : mp = false := by
        cases mp with
        | true => exact absurd ⟨rfl, rfl⟩ h3
        | false => rfl
      subst hmp
      cases dm with
      | true =>
        have hdc := h2 rfl rfl
        obtain ⟨k, hk⟩ : ∃ k, dc = k + 1 := ⟨dc - 1, by omega⟩
        subst hk
        have hcat : firstGpuToken
            (detectAvailableDevices ⟨false, cc, true, true, k + 1, false⟩)
            = some (strL "directml:" ++ digitsOfNat 0) := by
          unfold detectAvailableDevices
          dsimp only
          rw [List.range_succ_eq_map, List.map_cons, if_neg (by simp),
            if_pos (by simp), List.nil_append, List.cons_append]
          exact fgt_cons _ _ (by decide)
        rw [hcat]
        exact ⟨⟨.dml 0, strL "directml", false⟩, rfl, rfl, rfl⟩
      | false =>
        have hcat : firstGpuToken
            (detectAvailableDevices ⟨false, cc, true, false, dc, false⟩) = none := by
          unfold detectAvailableDevices
          dsimp only
          rfl
        rw [hcat]
        rfl
    | false =>
      cases mp with
      | true =>
        have hcat : firstGpuToken
            (detectAvailableDevices ⟨false, cc, false, dm, dc, true⟩)
            = some (strL "mps") := by
          unfold detectAvailableDevices
          dsimp only
          rw [if_neg (by simp), if_neg (by simp), if_pos rfl, List.nil_append,
            List.nil_append]
          exact fgt_cons _ _ (by decide)
        rw [hcat]
        exact ⟨⟨.mps, strL "mps", false⟩, rfl, rfl, rfl⟩
      | false =>
        have hcat : firstGpuToken
            (detectAvailableDevices ⟨false, cc, false, dm, dc, false⟩) = none := by
          unfold detectAvailableDevices
          dsimp only
          rfl
        rw [hcat]
        rfl

/-- C8 (witness): the amended theorem on a CPU-only host, where auto
resolves to CPU. -/
theorem c8_witness :
    parseDeviceString ⟨false, 0, false, false, 0, false⟩ (strL "auto")
      = .ok ⟨.cpu, strL "cpu", false⟩ :=
  c8_amended ⟨false, 0, false, false, 0, false⟩ (by decide) (by decide) (by decide)

theorem isAbsL_osJoin {dir b : Str} (hd : isAbsL dir = true)
    (hb : isAbsL b = false) : isAbsL (osJoinL dir b) = true := by
  unfold osJoinL
  rw [hb]
  simp only [Bool.false_eq_true, if_false]
  cases dir with
  | nil => exact absurd hd (by decide)
  | cons c t =>
    rw [if_neg (by simp)]
    by_cases h3 : (c :: t).getLastD ' ' = '/'
    · rw [if_pos h3]
      exact hd
    · rw [if_neg h3]
      exact hd

theorem firstMatchStem_mem {nm stem : Str}
    (h : firstMatchStem nm = some stem) :
    stem ∈ stemRules.map (fun r => r.1) := by
  unfold firstMatchStem at h
  rcases Option.map_eq_some'.mp h with ⟨r, hr, he⟩
  subst he
  exact List.mem_map_of_mem _ (List.mem_of_find?_eq_some hr)

theorem mem_assocSet {l : List (Str × Str)} {k v : Str} {e : Str × Str}
    (h : e ∈ assocSet l k v) : e ∈ l ∨ e = (k, v) := by
  unfold assocSet at h
  split at h
  · rcases List.mem_map.mp h with ⟨a, ha, he⟩
    by_cases hk : a.1 = k
    · rw [if_pos hk] at he
      exact Or.inr he.symm
    · rw [if_neg hk] at he
      exact Or.inl (he ▸ ha)
  · rcases List.mem_append.mp h with h | h
    · exact Or.inl h
    · exact Or.inr (List.mem_singleton.mp h)

theorem reconcile_result_abs (dir : Str) (hd : isAbsL dir = true)
    (raws : List Str) :
    ∀ e ∈ (reconcile dir raws).result, isAbsL e.2 = true := by
  unfold reconcile
  have main : ∀ (l : List Str) (acc : ReconcileState),
      (∀ e ∈ acc.result, isAbsL e.2 = true) →
      ∀ e ∈ (List.foldl (reconcileStep dir) acc l).result, isAbsL e.2 = true := by
    intro l
    induction l with
    | nil => intro acc hacc; exact hacc
    | cons raw rest ih =>
      intro acc hacc
      rw [List.foldl_cons]
      refine ih (reconcileStep dir acc raw) ?_
      intro e he
      unfold reconcileStep at he
      dsimp only at he
      rcases hm : firstMatchStem (lowerL (stemOfPath
          (if isAbsL raw = true then raw else osJoinL dir raw))) with _ | stem
      · rw [hm] at he
        exact hacc e he
      · rw [hm] at he
        dsimp only at he
        rcases mem_assocSet he with h | h
        · exact hacc e h
        · rw [h]
          have hstem := firstMatchStem_mem hm
          have habs : isAbsL (stem ++ strL ".wav") = false := by
            simp only [stemRules, List.map_cons, List.map_nil, List.mem_cons,
              List.not_mem_nil, or_false] at hstem
            rcases hstem with h | h | h | h | h | h <;> subst h <;> decide
          exact isAbsL_osJoin hd habs
  exact main _ ⟨[], []⟩ (by intro e he; exact absurd he (List.not_mem_nil e))

/-- C9 (amended): on every successful run the standard-output trace
carries exactly one JSON result line, placed immediately after the
final PROGRESS line with percent 100; the result object maps matched
canonical stems to paths under the output directory, and those paths
are absolute whenever the output directory argument is absolute (with a
relative output directory they are relative, as the counterexample
shows). -/
theorem c9_amended (ldTicks prTicks : List ℝ) (est : ℝ) (dir : Str)
    (raws : List Str) :
    (∃ pre : List OutLine,
      successStdout ldTicks prTicks est dir raws
        = pre ++ [.progress 100, .jsonResult (reconcile dir raws).result]
      ∧ ∀ x ∈ pre, x.isJson = false)
    ∧ (isAbsL dir = true →
        ∀ e ∈ (reconcile dir raws).result, isAbsL e.2 = true) := by
  constructor
  · refine ⟨[.progress 0, .progress 1, .progress 3]
      ++ (loadingEmits ldTicks).map OutLine.progress
      ++ [.progress 11]
      ++ (procEmits est prTicks).map OutLine.progress
      ++ [.progress 92], ?_, ?_⟩
    · unfold successStdout
      simp [List.append_assoc]
    · intro x hx
      simp only [List.append_assoc, List.mem_append, List.mem_cons,
        List.not_mem_nil, or_false, List.mem_map] at hx
      rcases hx with (h | h | h) | ⟨p, _, h⟩ | h | ⟨p, _, h⟩ | h <;>
        subst h <;> rfl
  · intro hd
    exact reconcile_result_abs dir hd raws

/-- C9 (witness): the amended theorem at an absolute output directory,
applied to the single mapped entry of a concrete run. -/
theorem c9_witness : isAbsL (strL "/out/vocals.wav") = true :=
  (c9_amended [] [] 1 (strL "/out") [strL "vocals.wav"]).2 (by decide)
    (strL "vocals", strL "/out/vocals.wav") (by decide)

end Stemperator
